import Mathlib

/-!
Verification of the yb0sps_bridge UDP-to-HTTP relay (yb0sps_bridge.py).

The Python source is embedded shallowly:

* Python string-keyed `dict` values are modelled as `List (String × String)`
  kept in insertion order; `dictInsert` models the assignment `d[k] = v`
  (update the existing entry in place when the key is present, append
  otherwise) and `dlookup` models key lookup.
* The outcomes of the external library parsers `xml.etree.ElementTree.fromstring`
  and `json.loads` are inputs of the model: a `DecodedText` carries the decoded
  string together with the result of both parsers on it (`none` means the
  parser raises an exception, which the source catches).
* `parse_n1mm_xml`, `try_parse_json`, `handle_packet`, `to_bool`, `post_form`
  and the datagram decoding step of `start_udp_listener` are translated
  line by line from the source.
-/

/-- Python dictionary lookup on an insertion-ordered association list:
returns the value of the first entry with the given key. -/
def dlookup : List (String × String) → String → Option String
  | [], _ => none
  | p :: rest, k => if p.1 = k then some p.2 else dlookup rest k

/-- Python dictionary assignment `d[k] = v`: when the key is already present
the entry keeps its position and gets the new value, otherwise the pair is
appended at the end. -/
def dictInsert (m : List (String × String)) (k v : String) : List (String × String) :=
  if m.any (fun p => p.1 = k) then
    m.map (fun p => if p.1 = k then (k, v) else p)
  else
    m ++ [(k, v)]

/-- Building a Python dictionary by assigning a list of key/value pairs in
order into an initially empty dictionary, as a dict comprehension or a
sequence of `d[k] = v` statements does. -/
def dictBuild (kvs : List (String × String)) : List (String × String) :=
  kvs.foldl (fun m kv => dictInsert m kv.1 kv.2) []

/-- Keys of a modelled dictionary, in order. -/
def dkeys (m : List (String × String)) : List String :=
  m.map Prod.fst

/-- Values parsed from JSON text by `json.loads`.  Numbers are modelled as
integers (the payloads relevant here carry integer literals). -/
inductive Json where
  | null : Json
  | bool : Bool → Json
  | num : Int → Json
  | str : String → Json
  | arr : List Json → Json
  | obj : List (String × Json) → Json

/-- Single-quote character, used by the Python `repr` of strings. -/
def sglq : String := String.mk [Char.ofNat 39]

/-- Opening curly brace as a string. -/
def lbr : String := String.mk [Char.ofNat 123]

/-- Closing curly brace as a string. -/
def rbr : String := String.mk [Char.ofNat 125]

/-- Python `repr` of a string, for strings without quotes or escapes:
the text wrapped in single quotes. -/
def pyReprStr (s : String) : String := sglq ++ s ++ sglq

mutual

/-- Python `repr` of a value produced by `json.loads`: `None`, `True`,
`False`, decimal integers, single-quoted strings, and bracketed,
comma-separated lists and dictionaries. -/
def pyRepr : Json → String
  | Json.null => "None"
  | Json.bool true => "True"
  | Json.bool false => "False"
  | Json.num n => toString n
  | Json.str s => pyReprStr s
  | Json.arr xs => "[" ++ pyReprItems xs ++ "]"
  | Json.obj kvs => lbr ++ pyReprEntries kvs ++ rbr

/-- Comma-separated `repr` of list items. -/
def pyReprItems : List Json → String
  | [] => ""
  | [x] => pyRepr x
  | x :: y :: rest => pyRepr x ++ ", " ++ pyReprItems (y :: rest)

/-- Comma-separated `repr` of dictionary entries. -/
def pyReprEntries : List (String × Json) → String
  | [] => ""
  | [(k, v)] => pyReprStr k ++ ": " ++ pyRepr v
  | (k, v) :: e :: rest => pyReprStr k ++ ": " ++ pyRepr v ++ ", " ++ pyReprEntries (e :: rest)

end

/-- Python `str` of a value produced by `json.loads`: a string is returned
as itself, every other value prints as its `repr`. -/
def pyStr : Json → String
  | Json.str s => s
  | v => pyRepr v

/-- One XML element as produced by `xml.etree.ElementTree.fromstring`:
its tag (with a namespace written as a braced prefix of the tag, as
ElementTree does), its direct text content, and its child elements. -/
structure XmlElem where
  tag : String
  text : Option String
  children : List XmlElem

/-- Characters after the first closing brace of the list, or `none` when the
list holds no closing brace. -/
def afterBrace : List Char → Option (List Char)
  | [] => none
  | c :: rest => if c = Char.ofNat 125 then some rest else afterBrace rest

/-- Model of lines 57 and 58 of the source: `tag.split(chr(125), 1)[1]`
guarded by the membership test, that is everything after the first closing
brace when the tag contains one, and the tag itself otherwise. -/
def stripNamespace (tag : String) : String :=
  match afterBrace tag.data with
  | none => tag
  | some rest => String.mk rest

/-- Lines 50 to 59 of the source, the success path of `parse_n1mm_xml`:
iterate the direct children of the root element, strip the namespace from
each tag, and record the direct text of the child, or the empty string when
the child has none.  Grandchildren are not visited. -/
def parse_n1mm_xml_ok (root : XmlElem) : List (String × String) :=
  dictBuild (root.children.map (fun c => (stripNamespace c.tag, c.text.getD "")))

/-- `parse_n1mm_xml` as a whole: when `ET.fromstring` raises, the exception
is caught, logged, and the dictionary built so far (empty) is returned. -/
def parse_n1mm_xml (parsed : Option XmlElem) : List (String × String) :=
  match parsed with
  | none => []
  | some root => parse_n1mm_xml_ok root

/-- `try_parse_json`: when `json.loads` succeeds and the value is a `dict`,
return the dict comprehension mapping every key to the Python `str` of its
value; any exception and any non-dict value yield the empty dictionary. -/
def try_parse_json (parsed : Option Json) : List (String × String) :=
  match parsed with
  | some (Json.obj kvs) => dictBuild (kvs.map (fun kv => (kv.1, pyStr kv.2)))
  | _ => []

/-- A decoded datagram text together with the oracle outcomes of the two
external parsers applied to it. -/
structure DecodedText where
  text : String
  xmlParsed : Option XmlElem
  jsonParsed : Option Json

/-- Which extraction branch of `handle_packet` produced the fields. -/
inductive Strategy where
  | n1mmXml : Strategy
  | jtdxJson : Strategy
  | jtdxXmlFallback : Strategy
deriving DecidableEq

/-- Lines 90 to 104 of `handle_packet`: the source string `N1MM` selects XML
extraction; every other source tries JSON first and falls back to XML when
the JSON result is an empty (hence falsy) dictionary.  The strategy
component records which branch ran. -/
def extractWithStrategy (source : String) (d : DecodedText) :
    Strategy × List (String × String) :=
  if source = "N1MM" then
    (Strategy.n1mmXml, parse_n1mm_xml d.xmlParsed)
  else
    let j := try_parse_json d.jsonParsed
    if j = [] then
      (Strategy.jtdxXmlFallback, parse_n1mm_xml d.xmlParsed)
    else
      (Strategy.jtdxJson, j)

/-- The extracted fields of one packet. -/
def extractFields (source : String) (d : DecodedText) : List (String × String) :=
  (extractWithStrategy source d).2

/-- Python slicing `s[:n]` on a string: the first `n` code points. -/
def pyTruncate (s : String) (n : Nat) : String :=
  String.mk (s.data.take n)

/-- Lines 81 and 82 of `handle_packet`: the logged preview is the full text
when `len(data) < 300` and the first 300 code points followed by an ellipsis
marker otherwise. -/
def previewOf (data : String) : String :=
  if data.length < 300 then data else pyTruncate data 300 ++ "..."

/-- The observable outcome of `handle_packet` on one packet: the logged
preview and the payload handed to `post_form`. -/
structure HandleResult where
  preview : String
  payload : List (String × String)
deriving DecidableEq

/-- `handle_packet`: build the payload dictionary with the three literal
keys `source`, `data_raw`, `token` in that order, then assign every
extracted field into it. -/
def handle_packet (source : String) (d : DecodedText) (token : String) : HandleResult :=
  { preview := previewOf d.text
    payload :=
      (extractFields source d).foldl (fun p kv => dictInsert p kv.1 kv.2)
        [("source", source), ("data_raw", d.text), ("token", token)] }

/-- The outcome of the one `requests.post` call in `post_form`: either a
response carrying a status code (any status, including non-2xx, since the
source never raises for status) or a raised exception with its message. -/
inductive PostOutcome where
  | ok : Nat → PostOutcome
  | err : String → PostOutcome
deriving DecidableEq

/-- `post_form`: one POST attempt; the `try` block logs the status code of
a response and the `except` block logs the exception.  The function always
returns its log lines normally. -/
def post_form (url : String) (o : PostOutcome) : List String :=
  match o with
  | PostOutcome.ok c => ["POST " ++ url ++ " -> " ++ toString c]
  | PostOutcome.err e => ["POST error: " ++ e]

/-- Characters removed by the Python `str.strip()` call in `to_bool`
(modelled over the ASCII whitespace characters: space, tab, line feed,
vertical tab, form feed, carriage return). -/
def isPyWs (c : Char) : Bool :=
  decide (c = Char.ofNat 32 ∨ c = Char.ofNat 9 ∨ c = Char.ofNat 10 ∨
    c = Char.ofNat 11 ∨ c = Char.ofNat 12 ∨ c = Char.ofNat 13)

/-- Python `str.strip()`: remove leading and trailing whitespace. -/
def pyStrip (s : String) : String :=
  String.mk (((s.data.dropWhile isPyWs).reverse.dropWhile isPyWs).reverse)

/-- Python `str.lower()` on one character, modelled over ASCII: uppercase
letters are shifted to lowercase, every other character is unchanged. -/
def pyLowerChar (c : Char) : Char :=
  if Char.ofNat 65 ≤ c ∧ c ≤ Char.ofNat 90 then Char.ofNat (c.toNat + 32) else c

/-- Python `str.lower()`, applied character by character. -/
def pyLower (s : String) : String :=
  String.mk (s.data.map pyLowerChar)

/-- Line 22 of the source: `to_bool` returns whether the stripped,
lowercased argument is one of the four accepted literals. -/
def to_bool (s : String) : Bool :=
  let t := pyLower (pyStrip s)
  t = "1" || t = "true" || t = "yes" || t = "on"

/-- Modelled from the claim wording for comparison with `to_bool`: whether
the argument itself, compared case-insensitively and without any whitespace
stripping, is one of `1`, `true`, `yes`, `on`. -/
def boolSpecAccepts (s : String) : Bool :=
  pyLower s = "1" || pyLower s = "true" || pyLower s = "yes" || pyLower s = "on"

/-- UTF-8 continuation byte test: `0x80` to `0xBF`. -/
def contByte (b : Nat) : Bool :=
  decide (128 ≤ b ∧ b < 192)

/-- Valid range of the second byte of a multi-byte UTF-8 sequence headed by
`b`, following the restricted ranges the CPython decoder enforces (no
overlong encodings, no surrogates, nothing above `U+10FFFF`). -/
def cont2 (b b1 : Nat) : Bool :=
  if b = 224 then decide (160 ≤ b1 ∧ b1 < 192)
  else if b = 237 then decide (128 ≤ b1 ∧ b1 < 160)
  else if b = 240 then decide (144 ≤ b1 ∧ b1 < 192)
  else if b = 244 then decide (128 ≤ b1 ∧ b1 < 144)
  else contByte b1

/-- The Unicode replacement character `U+FFFD` substituted for invalid
input by `errors=replace`. -/
def replChar : Char := Char.ofNat 65533

/-- One step of UTF-8 decoding with replacement: from the first byte and
the remaining bytes, produce the decoded character (or the replacement
character) and the bytes not consumed by this step.  At least the first
byte is always consumed. -/
def utf8Step (b : Nat) (rest : List Nat) : Char × List Nat :=
  if b < 128 then (Char.ofNat b, rest)
  else if 194 ≤ b ∧ b < 224 then
    match rest with
    | b1 :: r1 =>
      if contByte b1 then (Char.ofNat ((b - 192) * 64 + (b1 - 128)), r1)
      else (replChar, rest)
    | [] => (replChar, [])
  else if 224 ≤ b ∧ b < 240 then
    match rest with
    | b1 :: r1 =>
      if cont2 b b1 then
        match r1 with
        | b2 :: r2 =>
          if contByte b2 then
            (Char.ofNat ((b - 224) * 4096 + (b1 - 128) * 64 + (b2 - 128)), r2)
          else (replChar, r1)
        | [] => (replChar, [])
      else (replChar, rest)
    | [] => (replChar, [])
  else if 240 ≤ b ∧ b < 245 then
    match rest with
    | b1 :: r1 =>
      if cont2 b b1 then
        match r1 with
        | b2 :: r2 =>
          if contByte b2 then
            match r2 with
            | b3 :: r3 =>
              if contByte b3 then
                (Char.ofNat ((b - 240) * 262144 + (b1 - 128) * 4096 +
                  (b2 - 128) * 64 + (b3 - 128)), r3)
              else (replChar, r2)
            | [] => (replChar, [])
          else (replChar, r1)
        | [] => (replChar, [])
      else (replChar, rest)
    | [] => (replChar, [])
  else (replChar, rest)

/-- Fuelled driver of the decoder; the fuel is an upper bound on the number
of steps, and every step consumes at least one byte, so fuel equal to the
length of the input never runs out. -/
def utf8Go : Nat → List Nat → List Char
  | 0, _ => []
  | _, [] => []
  | fuel + 1, b :: rest =>
    let s := utf8Step b rest
    s.1 :: utf8Go fuel s.2

/-- Model of `data.decode(utf8, errors=replace)`: UTF-8 decoding that never
raises, substituting the replacement character for invalid input. -/
def utf8DecodeReplace (bs : List Nat) : List Char :=
  utf8Go bs.length bs

/-- Model of `rstrip` with the NUL character: remove every trailing NUL. -/
def rstripNul (cs : List Char) : List Char :=
  (cs.reverse.dropWhile (fun c => c = Char.ofNat 0)).reverse

/-- Line 124 of the source, the decoding of one received datagram:
`data.decode(utf8, errors=replace).rstrip(chr(0))`. -/
def decode_packet (bs : List Nat) : String :=
  String.mk (rstripNul (utf8DecodeReplace bs))

/-- Left-biased choice between two optional values, used to express that a
lookup in a merged dictionary falls through from one part to another. -/
def oor (a b : Option String) : Option String :=
  match a with
  | some v => some v
  | none => b

theorem oor_none_right (a : Option String) : oor a none = a := by
  cases a <;> rfl

theorem oor_assoc (a b c : Option String) : oor (oor a b) c = oor a (oor b c) := by
  cases a <;> rfl

theorem dkeys_nil : dkeys [] = [] := rfl

theorem dkeys_cons (p : String × String) (rest : List (String × String)) :
    dkeys (p :: rest) = p.1 :: dkeys rest := rfl

theorem dkeys_append (m1 m2 : List (String × String)) :
    dkeys (m1 ++ m2) = dkeys m1 ++ dkeys m2 := by
  simp [dkeys]

theorem any_key_iff (m : List (String × String)) (k : String) :
    m.any (fun p => p.1 = k) = true ↔ k ∈ dkeys m := by
  simp [List.any_eq_true, dkeys, List.mem_map]

theorem dlookup_append (m1 m2 : List (String × String)) (k : String) :
    dlookup (m1 ++ m2) k = oor (dlookup m1 k) (dlookup m2 k) := by
  induction m1 with
  | nil => rfl
  | cons p rest ih =>
    by_cases h : p.1 = k
    · simp [dlookup, h, oor]
    · simp [dlookup, h, ih]

theorem dlookup_eq_none (m : List (String × String)) (k : String) (h : k ∉ dkeys m) :
    dlookup m k = none := by
  induction m with
  | nil => rfl
  | cons p rest ih =>
    rw [dkeys_cons, List.mem_cons] at h
    push_neg at h
    have h1 : ¬ p.1 = k := fun he => h.1 he.symm
    simp [dlookup, h1, ih h.2]

theorem dlookup_map_update (m : List (String × String)) (k v k2 : String) (h : k2 ≠ k) :
    dlookup (m.map (fun p => if p.1 = k then (k, v) else p)) k2 = dlookup m k2 := by
  induction m with
  | nil => rfl
  | cons p rest ih =>
    by_cases hp : p.1 = k
    · simp [dlookup, hp, Ne.symm h, ih, hp ▸ Ne.symm h]
    · simp [dlookup, hp, ih]

theorem dlookup_map_update_self (m : List (String × String)) (k v : String)
    (h : k ∈ dkeys m) :
    dlookup (m.map (fun p => if p.1 = k then (k, v) else p)) k = some v := by
  induction m with
  | nil => cases h
  | cons p rest ih =>
    by_cases hp : p.1 = k
    · simp [dlookup, hp]
    · rw [dkeys_cons, List.mem_cons] at h
      rcases h with h | h
      · exact absurd h.symm hp
      · simp [dlookup, hp, ih h]

theorem dlookup_dictInsert (m : List (String × String)) (k v k2 : String) :
    dlookup (dictInsert m k v) k2 = if k2 = k then some v else dlookup m k2 := by
  unfold dictInsert
  by_cases hmem : k ∈ dkeys m
  · rw [if_pos ((any_key_iff m k).mpr hmem)]
    by_cases hk : k2 = k
    · subst hk; rw [if_pos rfl, dlookup_map_update_self m k2 v hmem]
    · rw [if_neg hk, dlookup_map_update m k v k2 hk]
  · rw [if_neg (fun hc => hmem ((any_key_iff m k).mp hc)), dlookup_append]
    by_cases hk : k2 = k
    · subst hk
      rw [if_pos rfl, dlookup_eq_none m k2 hmem]
      simp [dlookup, oor]
    · rw [if_neg hk]
      have hne : ¬ k = k2 := fun he => hk he.symm
      have h2 : dlookup [(k, v)] k2 = none := by simp [dlookup, hne]
      rw [h2, oor_none_right]

theorem dlookup_foldl_dictInsert (kvs base : List (String × String)) (k : String) :
    dlookup (kvs.foldl (fun m kv => dictInsert m kv.1 kv.2) base) k =
      oor (dlookup kvs.reverse k) (dlookup base k) := by
  induction kvs generalizing base with
  | nil => rfl
  | cons kv rest ih =>
    rw [List.foldl_cons, ih, List.reverse_cons, dlookup_append, oor_assoc]
    congr 1
    rw [dlookup_dictInsert]
    by_cases hk : k = kv.1
    · simp [dlookup, hk, oor]
    · have hne : ¬ kv.1 = k := fun he => hk he.symm
      simp [dlookup, hk, hne, oor]

theorem dlookup_dictBuild (kvs : List (String × String)) (k : String) :
    dlookup (dictBuild kvs) k = dlookup kvs.reverse k := by
  rw [dictBuild, dlookup_foldl_dictInsert]
  exact oor_none_right _

theorem dkeys_reverse (m : List (String × String)) :
    dkeys m.reverse = (dkeys m).reverse := by
  simp [dkeys]

theorem dkeys_dictInsert (m : List (String × String)) (k v : String) :
    dkeys (dictInsert m k v) = if k ∈ dkeys m then dkeys m else dkeys m ++ [k] := by
  unfold dictInsert
  by_cases hmem : k ∈ dkeys m
  · rw [if_pos ((any_key_iff m k).mpr hmem), if_pos hmem]
    unfold dkeys
    rw [List.map_map]
    apply List.map_congr_left
    intro p _
    by_cases hp : p.1 = k
    · simp [hp]
    · simp [hp]
  · rw [if_neg (fun hc => hmem ((any_key_iff m k).mp hc)), if_neg hmem, dkeys_append]
    rfl

theorem nodup_dkeys_dictInsert (m : List (String × String)) (k v : String)
    (h : (dkeys m).Nodup) : (dkeys (dictInsert m k v)).Nodup := by
  rw [dkeys_dictInsert]
  by_cases hmem : k ∈ dkeys m
  · rwa [if_pos hmem]
  · rw [if_neg hmem]
    exact ((List.perm_append_singleton k (dkeys m)).nodup_iff).mpr
      (List.nodup_cons.mpr ⟨hmem, h⟩)

theorem nodup_dkeys_foldl (kvs base : List (String × String))
    (h : (dkeys base).Nodup) :
    (dkeys (kvs.foldl (fun m kv => dictInsert m kv.1 kv.2) base)).Nodup := by
  induction kvs generalizing base with
  | nil => exact h
  | cons kv rest ih =>
    rw [List.foldl_cons]
    exact ih _ (nodup_dkeys_dictInsert base kv.1 kv.2 h)

theorem nodup_dkeys_dictBuild (kvs : List (String × String)) :
    (dkeys (dictBuild kvs)).Nodup := by
  exact nodup_dkeys_foldl kvs [] List.nodup_nil

theorem dlookup_reverse_of_nodup (m : List (String × String)) (k : String)
    (h : (dkeys m).Nodup) : dlookup m.reverse k = dlookup m k := by
  induction m with
  | nil => rfl
  | cons p rest ih =>
    rw [dkeys_cons, List.nodup_cons] at h
    rw [List.reverse_cons, dlookup_append]
    by_cases hp : p.1 = k
    · have hnm : k ∉ dkeys rest := hp ▸ h.1
      have hrev : dlookup rest.reverse k = none := by
        apply dlookup_eq_none
        rw [dkeys_reverse, List.mem_reverse]
        exact hnm
      simp [hrev, dlookup, hp, oor]
    · have h1 : dlookup [p] k = none := by simp [dlookup, hp]
      simp [dlookup, hp, h1, oor_none_right, ih h.2]

theorem dlookup_of_mem_nodup (m : List (String × String)) (k v : String)
    (hnd : (dkeys m).Nodup) (hmem : (k, v) ∈ m) : dlookup m k = some v := by
  induction m with
  | nil => cases hmem
  | cons p rest ih =>
    rw [dkeys_cons, List.nodup_cons] at hnd
    rcases List.mem_cons.mp hmem with h | h
    · rw [← h]
      simp [dlookup]
    · by_cases hp : p.1 = k
      · exfalso
        apply hnd.1
        rw [hp]
        exact List.mem_map_of_mem Prod.fst h
      · simp [dlookup, hp, ih hnd.2 h]

theorem mem_dictInsert (m : List (String × String)) (k v : String)
    (x : String × String) (h : x ∈ dictInsert m k v) : x ∈ m ∨ x = (k, v) := by
  unfold dictInsert at h
  by_cases hb : (m.any fun p => p.1 = k) = true
  · rw [if_pos hb] at h
    rcases List.mem_map.mp h with ⟨p, hp, he⟩
    by_cases hpk : p.1 = k
    · right
      rw [← he]
      simp [hpk]
    · left
      rw [← he]
      simpa [hpk] using hp
  · rw [if_neg hb] at h
    rcases List.mem_append.mp h with h | h
    · left; exact h
    · right; simpa using h

theorem mem_foldl_dictInsert (kvs base : List (String × String))
    (x : String × String)
    (h : x ∈ kvs.foldl (fun m kv => dictInsert m kv.1 kv.2) base) :
    x ∈ base ∨ x ∈ kvs := by
  induction kvs generalizing base with
  | nil => left; exact h
  | cons kv rest ih =>
    rw [List.foldl_cons] at h
    rcases ih _ h with h2 | h2
    · rcases mem_dictInsert base kv.1 kv.2 x h2 with h3 | h3
      · left; exact h3
      · right
        rw [h3]
        exact List.mem_cons_self _ _
    · right
      exact List.mem_cons_of_mem _ h2

theorem mem_dictBuild (kvs : List (String × String)) (x : String × String)
    (h : x ∈ dictBuild kvs) : x ∈ kvs := by
  rcases mem_foldl_dictInsert kvs [] x h with h2 | h2
  · cases h2
  · exact h2

theorem le_length_dictInsert (m : List (String × String)) (k v : String) :
    m.length ≤ (dictInsert m k v).length := by
  unfold dictInsert
  split
  · simp
  · simp

theorem length_dictInsert_le (m : List (String × String)) (k v : String) :
    (dictInsert m k v).length ≤ m.length + 1 := by
  unfold dictInsert
  split
  · simp
  · simp

theorem le_length_foldl_dictInsert (kvs base : List (String × String)) :
    base.length ≤ (kvs.foldl (fun m kv => dictInsert m kv.1 kv.2) base).length := by
  induction kvs generalizing base with
  | nil => exact Nat.le_refl _
  | cons kv rest ih =>
    rw [List.foldl_cons]
    exact Nat.le_trans (le_length_dictInsert base kv.1 kv.2) (ih _)

theorem length_foldl_dictInsert_le (kvs base : List (String × String)) :
    (kvs.foldl (fun m kv => dictInsert m kv.1 kv.2) base).length ≤
      base.length + kvs.length := by
  induction kvs generalizing base with
  | nil => simp
  | cons kv rest ih =>
    rw [List.foldl_cons]
    calc (rest.foldl (fun m kv => dictInsert m kv.1 kv.2)
            (dictInsert base kv.1 kv.2)).length
        ≤ (dictInsert base kv.1 kv.2).length + rest.length := ih _
      _ ≤ (base.length + 1) + rest.length :=
            Nat.add_le_add_right (length_dictInsert_le base kv.1 kv.2) _
      _ = base.length + (kv :: rest).length := by simp; omega

theorem length_dictBuild_le (kvs : List (String × String)) :
    (dictBuild kvs).length ≤ kvs.length := by
  have h := length_foldl_dictInsert_le kvs []
  simpa using h

theorem dictBuild_ne_nil (kvs : List (String × String)) (h : kvs ≠ []) :
    dictBuild kvs ≠ [] := by
  match kvs with
  | [] => exact absurd rfl h
  | kv :: rest =>
    rw [dictBuild, List.foldl_cons]
    have h1 : dictInsert [] kv.1 kv.2 = [(kv.1, kv.2)] := rfl
    rw [h1]
    have h2 := le_length_foldl_dictInsert rest [(kv.1, kv.2)]
    intro hc
    rw [hc] at h2
    simp at h2

theorem foldl_dictInsert_of_disjoint (kvs : List (String × String)) :
    ∀ base : List (String × String), (∀ kv ∈ kvs, kv.1 ∉ dkeys base) →
    (kvs.map Prod.fst).Nodup →
    kvs.foldl (fun m kv => dictInsert m kv.1 kv.2) base = base ++ kvs := by
  induction kvs with
  | nil => intro base _ _; simp
  | cons kv rest ih =>
    intro base hd hnd
    rw [List.foldl_cons]
    have h1 : dictInsert base kv.1 kv.2 = base ++ [(kv.1, kv.2)] := by
      unfold dictInsert
      rw [if_neg]
      intro hc
      exact hd kv (List.mem_cons_self _ _) ((any_key_iff base kv.1).mp hc)
    rw [List.map_cons, List.nodup_cons] at hnd
    have h2 : ∀ kv2 ∈ rest, kv2.1 ∉ dkeys (base ++ [(kv.1, kv.2)]) := by
      intro kv2 hm
      rw [dkeys_append, List.mem_append]
      rintro (hc | hc)
      · exact hd kv2 (List.mem_cons_of_mem _ hm) hc
      · apply hnd.1
        have h3 : kv2.1 = kv.1 := by simpa [dkeys] using hc
        rw [← h3]
        exact List.mem_map_of_mem Prod.fst hm
    rw [h1, ih _ h2 hnd.2, List.append_assoc]
    rfl

theorem dictBuild_of_nodup_keys (kvs : List (String × String))
    (hnd : (kvs.map Prod.fst).Nodup) : dictBuild kvs = kvs := by
  rw [dictBuild, foldl_dictInsert_of_disjoint kvs [] (by simp [dkeys]) hnd]
  rfl

theorem nodup_dkeys_parse_n1mm_xml (parsed : Option XmlElem) :
    (dkeys (parse_n1mm_xml parsed)).Nodup := by
  cases parsed with
  | none => exact List.nodup_nil
  | some root => exact nodup_dkeys_dictBuild _

theorem nodup_dkeys_try_parse_json (parsed : Option Json) :
    (dkeys (try_parse_json parsed)).Nodup := by
  cases parsed with
  | none => exact List.nodup_nil
  | some v =>
    cases v with
    | obj kvs => exact nodup_dkeys_dictBuild _
    | null => exact List.nodup_nil
    | bool b => exact List.nodup_nil
    | num n => exact List.nodup_nil
    | str s => exact List.nodup_nil
    | arr xs => exact List.nodup_nil

theorem nodup_dkeys_extractFields (source : String) (d : DecodedText) :
    (dkeys (extractFields source d)).Nodup := by
  unfold extractFields extractWithStrategy
  by_cases h1 : source = "N1MM"
  · simp only [h1, if_pos]
    exact nodup_dkeys_parse_n1mm_xml _
  · simp only [if_neg h1]
    by_cases h2 : try_parse_json d.jsonParsed = []
    · simp only [h2, if_pos]
      exact nodup_dkeys_parse_n1mm_xml _
    · simp only [if_neg h2]
      exact nodup_dkeys_try_parse_json _

/-- C1 (amended): looking up any key in a dispatched RelayPayload gives the
extracted value for that key when extraction produced one, and otherwise
falls through to the base dictionary holding exactly `source` (the source
tag), `data_raw` (the full untruncated decoded text) and `token` (the
configured token).  Instantiating the key quantifier in both directions
shows that the payload holds exactly the extracted fields plus these three
keys; when an extracted field is itself named `source`, `data_raw` or
`token`, the extracted value replaces the base value. -/
theorem relay_payload_fields (source : String) (d : DecodedText) (token : String)
    (k : String) :
    dlookup ((handle_packet source d token).payload) k =
      oor (dlookup (extractFields source d) k)
        (dlookup [("source", source), ("data_raw", d.text), ("token", token)] k) := by
  have h1 := dlookup_foldl_dictInsert (extractFields source d)
    [("source", source), ("data_raw", d.text), ("token", token)] k
  have h2 := dlookup_reverse_of_nodup (extractFields source d) k
    (nodup_dkeys_extractFields source d)
  have h3 : (handle_packet source d token).payload =
      (extractFields source d).foldl (fun p kv => dictInsert p kv.1 kv.2)
        [("source", source), ("data_raw", d.text), ("token", token)] := rfl
  rw [h3, h1, h2]

/-- C1 counterexample: a packet whose XML carries a first-level element
named `source` overwrites the base `source` entry, so the dispatched
payload does not hold the source tag under the key `source`. -/
theorem relay_payload_overwrite_cex :
    dlookup ((handle_packet "N1MM"
        (DecodedText.mk "t"
          (some (XmlElem.mk "r" none [XmlElem.mk "source" (some "X") []])) none)
        "ABC123").payload) "source" = some "X" ∧
      ("X" : String) ≠ "N1MM" := by
  exact ⟨rfl, by decide⟩

/-- C2 counterexample: a root with two children both tagged `a` has two
direct children but the extracted map is the single entry holding the
second child's value, because the second assignment overwrites the first. -/
theorem xml_duplicate_tags_cex :
    parse_n1mm_xml_ok (XmlElem.mk "r" none
      [XmlElem.mk "a" (some "1") [], XmlElem.mk "a" (some "2") []]) =
      [("a", "2")] ∧
    (parse_n1mm_xml_ok (XmlElem.mk "r" none
      [XmlElem.mk "a" (some "1") [], XmlElem.mk "a" (some "2") []])).length = 1 ∧
    (XmlElem.mk "r" none
      [XmlElem.mk "a" (some "1") [],
       XmlElem.mk "a" (some "2") []]).children.length = 2 := by
  exact ⟨rfl, rfl, rfl⟩

/-- C2 (amended): XML-first extraction of a well-formed document yields at
most one entry per direct child of the root; looking up any key in the
result returns the first match in the reversed list of per-child pairs,
that is the value of the last direct child whose stripped tag equals the
key, so children with duplicate stripped tags collapse into one entry
holding the last such child's value; when the namespace-stripped tags of
the direct children are pairwise distinct it yields exactly one entry per
child, keyed by the stripped tag and valued by the direct text of the child
(empty string when absent); and the result never depends on grandchildren,
since pruning every child to a leaf leaves it unchanged. -/
theorem xml_first_level_extraction (root : XmlElem) :
    (parse_n1mm_xml_ok root).length ≤ root.children.length ∧
    (∀ k, dlookup (parse_n1mm_xml_ok root) k =
      dlookup (root.children.map
        (fun c => (stripNamespace c.tag, c.text.getD ""))).reverse k) ∧
    ((root.children.map (fun c => stripNamespace c.tag)).Nodup →
      parse_n1mm_xml_ok root =
        root.children.map (fun c => (stripNamespace c.tag, c.text.getD ""))) ∧
    parse_n1mm_xml_ok root =
      parse_n1mm_xml_ok
        (XmlElem.mk root.tag root.text
          (root.children.map (fun c => XmlElem.mk c.tag c.text []))) := by
  refine ⟨?_, ?_, ?_, ?_⟩
  · have h := length_dictBuild_le
      (root.children.map (fun c => (stripNamespace c.tag, c.text.getD "")))
    simpa using h
  · intro k
    exact dlookup_dictBuild _ k
  · intro hnd
    rw [parse_n1mm_xml_ok]
    apply dictBuild_of_nodup_keys
    rw [List.map_map]
    exact hnd
  · rw [parse_n1mm_xml_ok, parse_n1mm_xml_ok]
    simp only [List.map_map]
    rfl

/-- C2 witness: the N1MM contactinfo example of the spec, with two
distinctly tagged children, extracts exactly the two expected entries. -/
theorem xml_first_level_extraction_witness :
    parse_n1mm_xml_ok (XmlElem.mk "contactinfo" none
      [XmlElem.mk "call" (some "K1ABC") [], XmlElem.mk "band" (some "20m") []]) =
      [("call", "K1ABC"), ("band", "20m")] := by
  exact (xml_first_level_extraction (XmlElem.mk "contactinfo" none
    [XmlElem.mk "call" (some "K1ABC") [],
     XmlElem.mk "band" (some "20m") []])).2.2.1 (by decide)

/-- C3 counterexample: the empty JSON object parses as an object, yet the
extraction for the DigitalModeDecoder source runs the XML fallback, because
the empty dictionary is falsy in the guard of the source. -/
theorem jtdx_empty_object_cex :
    extractWithStrategy "JTDX"
        (DecodedText.mk (lbr ++ rbr) none (some (Json.obj []))) =
      (Strategy.jtdxXmlFallback, []) ∧
    Strategy.jtdxXmlFallback ≠ Strategy.jtdxJson := by
  exact ⟨rfl, by decide⟩

/-- C3 (amended): for the DigitalModeDecoder source, when the text parses
as a non-empty JSON object the field map is that object with stringified
values and no XML extraction is attempted; when JSON parsing fails, the
parsed value is not an object, or the object is empty, XML-first extraction
is applied to the same text. -/
theorem jtdx_json_first (d : DecodedText) :
    (∀ kvs, d.jsonParsed = some (Json.obj kvs) → kvs ≠ [] →
      extractWithStrategy "JTDX" d =
        (Strategy.jtdxJson, try_parse_json d.jsonParsed)) ∧
    ((∀ kvs, d.jsonParsed = some (Json.obj kvs) → kvs = []) →
      extractWithStrategy "JTDX" d =
        (Strategy.jtdxXmlFallback, parse_n1mm_xml d.xmlParsed)) := by
  have hsrc : ¬ ("JTDX" : String) = "N1MM" := by decide
  constructor
  · intro kvs hj hne
    have hnonempty : try_parse_json d.jsonParsed ≠ [] := by
      rw [hj, try_parse_json]
      apply dictBuild_ne_nil
      intro hc
      apply hne
      cases kvs with
      | nil => rfl
      | cons kv rest => simp at hc
    simp [extractWithStrategy, hsrc, hnonempty]
  · intro hall
    have hempty : try_parse_json d.jsonParsed = [] := by
      cases hd : d.jsonParsed with
      | none => rfl
      | some v =>
        cases v with
        | obj kvs =>
          rw [hall kvs hd]
          rfl
        | null => rfl
        | bool b => rfl
        | num n => rfl
        | str s => rfl
        | arr xs => rfl
    simp [extractWithStrategy, hsrc, hempty]

/-- C3 witness: a non-empty JSON object is taken as the field map without
the XML fallback, and a text where JSON parsing fails goes to the
XML fallback. -/
theorem jtdx_json_first_witness :
    extractWithStrategy "JTDX"
        (DecodedText.mk "a" none (some (Json.obj [("mode", Json.str "FT8")]))) =
      (Strategy.jtdxJson, [("mode", "FT8")]) ∧
    extractWithStrategy "JTDX" (DecodedText.mk "b" none none) =
      (Strategy.jtdxXmlFallback, []) := by
  constructor
  · exact (jtdx_json_first
      (DecodedText.mk "a" none (some (Json.obj [("mode", Json.str "FT8")])))).1
      [("mode", Json.str "FT8")] rfl (List.cons_ne_nil _ _)
  · exact (jtdx_json_first (DecodedText.mk "b" none none)).2
      (fun kvs hc => by cases hc)

/-- C4 counterexample: a JSON object entry with a null value is extracted
as the Python string of `None`, not as the empty string. -/
theorem json_null_value_cex :
    dlookup (try_parse_json (some (Json.obj [("a", Json.null)]))) "a" =
      some "None" ∧
    ("None" : String) ≠ "" := by
  exact ⟨rfl, by decide⟩

/-- C4 (amended): every extracted XML value is the direct text of some
direct child with the empty string substituted when the child has no text,
and under distinct stripped tags a child with no text is looked up as the
empty string; a JSON object entry whose value is null, however, maps to the
string `None`, the Python `str` of `None`, not to the empty string. -/
theorem extracted_value_defaults (root : XmlElem) (kvs : List (String × Json))
    (c : XmlElem) (k : String) :
    (∀ k2 v, (k2, v) ∈ parse_n1mm_xml_ok root →
      ∃ c2, c2 ∈ root.children ∧ k2 = stripNamespace c2.tag ∧
        v = c2.text.getD "") ∧
    ((root.children.map (fun c2 => stripNamespace c2.tag)).Nodup →
      c ∈ root.children → c.text = none →
      dlookup (parse_n1mm_xml_ok root) (stripNamespace c.tag) = some "") ∧
    ((kvs.map Prod.fst).Nodup → (k, Json.null) ∈ kvs →
      dlookup (try_parse_json (some (Json.obj kvs))) k = some "None") := by
  refine ⟨?_, ?_, ?_⟩
  · intro k2 v hm
    have h2 := mem_dictBuild _ _ hm
    rcases List.mem_map.mp h2 with ⟨c2, hc2, he⟩
    injection he with ha hb
    exact ⟨c2, hc2, ha.symm, hb.symm⟩
  · intro hnd hc htext
    rw [parse_n1mm_xml_ok, dictBuild_of_nodup_keys]
    · apply dlookup_of_mem_nodup
      · show (dkeys (root.children.map
          (fun c2 => (stripNamespace c2.tag, c2.text.getD "")))).Nodup
        unfold dkeys
        rw [List.map_map]
        exact hnd
      · apply List.mem_map.mpr
        refine ⟨c, hc, ?_⟩
        rw [htext]
        rfl
    · rw [List.map_map]
      exact hnd
  · intro hnd hm
    rw [try_parse_json, dictBuild_of_nodup_keys]
    · apply dlookup_of_mem_nodup
      · show (dkeys (kvs.map (fun kv => (kv.1, pyStr kv.2)))).Nodup
        unfold dkeys
        rw [List.map_map]
        exact hnd
      · exact List.mem_map.mpr ⟨(k, Json.null), hm, rfl⟩
    · rw [List.map_map]
      exact hnd

/-- C4 witness: a child element with no text extracts as the empty string,
and a JSON null value extracts as the string `None`. -/
theorem extracted_value_defaults_witness :
    dlookup (parse_n1mm_xml_ok
        (XmlElem.mk "r" none [XmlElem.mk "exch" none []])) "exch" = some "" ∧
    dlookup (try_parse_json (some (Json.obj [("grid", Json.null)]))) "grid" =
      some "None" := by
  constructor
  · exact (extracted_value_defaults
      (XmlElem.mk "r" none [XmlElem.mk "exch" none []]) []
      (XmlElem.mk "exch" none []) "x").2.1 (by decide)
      (List.mem_cons_self _ _) rfl
  · exact (extracted_value_defaults (XmlElem.mk "r" none []) [("grid", Json.null)]
      (XmlElem.mk "r" none []) "grid").2.2 (by decide)
      (List.mem_cons_self _ _)

theorem head?_dropWhile_false (p : Char → Bool) (l : List Char) (a : Char)
    (h : (l.dropWhile p).head? = some a) : p a = false := by
  induction l with
  | nil => cases h
  | cons x xs ih =>
    rw [List.dropWhile_cons] at h
    by_cases hx : p x = true
    · rw [if_pos hx] at h
      exact ih h
    · rw [if_neg hx] at h
      have hxa : x = a := by
        injection h
      rw [← hxa]
      exact Bool.eq_false_iff.mpr hx

/-- C5: the payload decoder is a total function on arbitrary byte
sequences — invalid UTF-8 input is replaced, never raised on — and its
result never ends in a NUL character; the concrete conjunct shows an
invalid byte becoming the replacement character and trailing NUL bytes
being stripped. -/
theorem decode_packet_total_no_trailing_nul :
    (∀ bs : List Nat, (decode_packet bs).data.getLast? ≠ some (Char.ofNat 0)) ∧
    decode_packet [72, 101, 255, 0, 0] = "He�" := by
  constructor
  · intro bs hc
    have h1 : (decode_packet bs).data = rstripNul (utf8DecodeReplace bs) := rfl
    rw [h1, rstripNul, List.getLast?_reverse] at hc
    have h2 := head?_dropWhile_false _ _ _ hc
    simp at h2
  · rfl

/-- C6: when the text is not well-formed XML the XML extractor returns the
empty map (without raising, being a total function), and the packet is
still dispatched with exactly the three base keys; this holds for the
ContestLogger source directly and for the DigitalModeDecoder source when
the JSON attempt also produced nothing. -/
theorem malformed_xml_dispatch (d : DecodedText) (token : String)
    (h : d.xmlParsed = none) :
    parse_n1mm_xml d.xmlParsed = [] ∧
    (handle_packet "N1MM" d token).payload =
      [("source", "N1MM"), ("data_raw", d.text), ("token", token)] ∧
    (try_parse_json d.jsonParsed = [] →
      (handle_packet "JTDX" d token).payload =
        [("source", "JTDX"), ("data_raw", d.text), ("token", token)]) := by
  have hsrc : ¬ ("JTDX" : String) = "N1MM" := by decide
  refine ⟨by rw [h]; rfl, ?_, ?_⟩
  · have he : extractFields "N1MM" d = [] := by
      simp [extractFields, extractWithStrategy, h, parse_n1mm_xml]
    simp [handle_packet, he]
  · intro hj
    have he : extractFields "JTDX" d = [] := by
      simp [extractFields, extractWithStrategy, hsrc, hj, h, parse_n1mm_xml]
    simp [handle_packet, he]

/-- C6 witness: concrete packets whose text parses as neither XML nor JSON
are dispatched with exactly the three base keys. -/
theorem malformed_xml_dispatch_witness :
    (handle_packet "N1MM" (DecodedText.mk "bad" none none) "ABC123").payload =
      [("source", "N1MM"), ("data_raw", "bad"), ("token", "ABC123")] ∧
    (handle_packet "JTDX" (DecodedText.mk "bad2" none none) "ABC123").payload =
      [("source", "JTDX"), ("data_raw", "bad2"), ("token", "ABC123")] := by
  exact ⟨(malformed_xml_dispatch (DecodedText.mk "bad" none none) "ABC123" rfl).2.1,
    (malformed_xml_dispatch (DecodedText.mk "bad2" none none) "ABC123" rfl).2.2 rfl⟩

/-- C7: the dispatcher is a total function of the outcome of its single
POST attempt — it returns normally for every outcome — and logs exactly one
line: the status code of a response (2xx or not), or the error text of a
raised exception. -/
theorem post_form_total_logs (url : String) (o : PostOutcome) :
    (post_form url o).length = 1 ∧
    (∀ c, o = PostOutcome.ok c →
      post_form url o = ["POST " ++ url ++ " -> " ++ toString c]) ∧
    (∀ e, o = PostOutcome.err e → post_form url o = ["POST error: " ++ e]) := by
  cases o with
  | ok c =>
    refine ⟨rfl, ?_, ?_⟩
    · intro c2 hc
      injection hc with hc2
      rw [hc2]
      rfl
    · intro e hc
      cases hc
  | err e =>
    refine ⟨rfl, ?_, ?_⟩
    · intro c hc
      cases hc
    · intro e2 hc
      injection hc with hc2
      rw [hc2]
      rfl

/-- C7 witness: a status outcome and an exception outcome each produce the
single expected log line. -/
theorem post_form_total_logs_witness :
    post_form "http://example.com/post" (PostOutcome.ok 200) =
      ["POST http://example.com/post -> 200"] ∧
    post_form "http://example.com/post" (PostOutcome.err "timed out") =
      ["POST error: timed out"] := by
  exact ⟨(post_form_total_logs "http://example.com/post" (PostOutcome.ok 200)).2.1
      200 rfl,
    (post_form_total_logs "http://example.com/post"
      (PostOutcome.err "timed out")).2.2 "timed out" rfl⟩

/-- C8 counterexample: a string with leading whitespace is accepted by
`to_bool` although, compared case-insensitively as it stands, it is not one
of the four accepted literals. -/
theorem to_bool_strip_cex :
    to_bool " true" = true ∧ boolSpecAccepts " true" = false := by
  exact ⟨by decide, by decide⟩

/-- C8 (amended): boolean parsing yields true exactly when the argument,
after stripping leading and trailing whitespace and lowercasing, is one of
`1`, `true`, `yes`, `on`; in particular surrounding whitespace does not
change the result. -/
theorem to_bool_characterization (s : String) :
    (to_bool s = true ↔
      pyLower (pyStrip s) ∈ (["1", "true", "yes", "on"] : List String)) ∧
    to_bool (" " ++ s) = to_bool s := by
  constructor
  · simp [to_bool]
    tauto
  · have hdata : (" " ++ s).data = Char.ofNat 32 :: s.data := by
      rw [String.data_append]
      rfl
    have h : pyStrip (" " ++ s) = pyStrip s := by
      unfold pyStrip
      rw [hdata, List.dropWhile_cons, if_pos (by decide)]
    simp only [to_bool, h]

/-- C9: values of an accepted JSON object are stringified with the Python
`str` conversion: booleans become `True` and `False`, and nested arrays and
objects print in Python repr style rather than as JSON. -/
theorem json_values_python_str :
    try_parse_json (some (Json.obj
      [("b1", Json.bool true), ("b2", Json.bool false),
       ("xs", Json.arr [Json.num 1, Json.num 2]),
       ("o", Json.obj [("a", Json.num 1)])])) =
      [("b1", "True"), ("b2", "False"), ("xs", "[1, 2]"),
       ("o", "\x7b\x27a\x27: 1\x7d")] ∧
    (∀ b : Bool, pyStr (Json.bool b) = (if b then "True" else "False")) := by
  constructor
  · rfl
  · intro b
    cases b with
    | true => rfl
    | false => rfl

/-- C10: the logged preview is the whole text when it is shorter than 300
characters, and its first 300 characters followed by the ellipsis marker
otherwise; at exactly 300 characters the marker is appended even though no
character was removed. -/
theorem preview_truncation (source : String) (d : DecodedText) (token : String) :
    (d.text.length < 300 → (handle_packet source d token).preview = d.text) ∧
    (300 ≤ d.text.length →
      (handle_packet source d token).preview = pyTruncate d.text 300 ++ "...") ∧
    (d.text.length = 300 →
      (handle_packet source d token).preview = d.text ++ "...") := by
  have hp : (handle_packet source d token).preview = previewOf d.text := rfl
  refine ⟨?_, ?_, ?_⟩
  · intro h
    rw [hp, previewOf, if_pos h]
  · intro h
    rw [hp, previewOf, if_neg (Nat.not_lt.mpr h)]
  · intro h
    rw [hp, previewOf, if_neg (by omega)]
    have hlen : d.text.data.length = 300 := h
    rw [pyTruncate, ← hlen, List.take_length]

set_option maxRecDepth 40000 in
/-- C10 witness: a short text previews whole; a text of exactly 300
characters previews as itself followed by the ellipsis marker. -/
theorem preview_truncation_witness :
    (handle_packet "N1MM" (DecodedText.mk "short" none none) "T").preview =
      "short" ∧
    (handle_packet "N1MM"
        (DecodedText.mk (String.mk (List.replicate 300 (Char.ofNat 97))) none none)
        "T").preview =
      pyTruncate (String.mk (List.replicate 300 (Char.ofNat 97))) 300 ++ "..." ∧
    (handle_packet "N1MM"
        (DecodedText.mk (String.mk (List.replicate 300 (Char.ofNat 97))) none none)
        "T").preview =
      String.mk (List.replicate 300 (Char.ofNat 97)) ++ "..." := by
  refine ⟨?_, ?_, ?_⟩
  · exact (preview_truncation "N1MM" (DecodedText.mk "short" none none) "T").1
      (by decide)
  · exact (preview_truncation "N1MM"
      (DecodedText.mk (String.mk (List.replicate 300 (Char.ofNat 97))) none none)
      "T").2.1 (by decide)
  · exact (preview_truncation "N1MM"
      (DecodedText.mk (String.mk (List.replicate 300 (Char.ofNat 97))) none none)
      "T").2.2 (by decide)
